import Mathlib

/-
A verification development for the YouTube-Video-Transcriber application
(`app.py`).  The program is shallowly embedded: outcomes of the external
systems (the `yt-dlp` subprocess, the speech model, the translation backend)
are environment parameters, and every Streamlit effect (UI messages, session
state mutation, external calls) is recorded as an explicit event so that the
evolution of the session state and the observable call trace can be reasoned
about.
-/

namespace YTT

/-- Decimal digit to character, as Python's `str` renders digits. -/
def digitChar10 : Nat → Char
  | 0 => '0'
  | 1 => '1'
  | 2 => '2'
  | 3 => '3'
  | 4 => '4'
  | 5 => '5'
  | 6 => '6'
  | 7 => '7'
  | 8 => '8'
  | 9 => '9'
  | _ => '*'

/-- Little-endian decimal digits of `n`, with explicit fuel so that the
recursion is structural (kernel-reducible). -/
def digitsRevAux : Nat → Nat → List Nat
  | _, 0 => []
  | 0, _ + 1 => []
  | fuel + 1, n + 1 => (n + 1) % 10 :: digitsRevAux fuel ((n + 1) / 10)

/-- Little-endian decimal digits of `n`. -/
def digitsRev (n : Nat) : List Nat := digitsRevAux n n

/-- Value denoted by a little-endian digit list. -/
def ofDigitsRev : List Nat → Nat
  | [] => 0
  | d :: ds => d + 10 * ofDigitsRev ds

/-- Decimal rendering of a natural number, Python's `str(n)`. -/
def natDecimal (n : Nat) : String :=
  if n = 0 then "0" else String.mk ((digitsRev n).reverse.map digitChar10)

theorem ofDigitsRev_digitsRevAux : ∀ fuel n, n ≤ fuel →
    ofDigitsRev (digitsRevAux fuel n) = n := by
  intro fuel
  induction fuel with
  | zero =>
    intro n hn
    interval_cases n
    rfl
  | succ fuel ih =>
    intro n hn
    cases n with
    | zero => rfl
    | succ m =>
      have hdiv : (m + 1) / 10 ≤ fuel := by omega
      simp only [digitsRevAux, ofDigitsRev, ih _ hdiv]
      omega

theorem ofDigitsRev_digitsRev (n : Nat) : ofDigitsRev (digitsRev n) = n :=
  ofDigitsRev_digitsRevAux n n (Nat.le_refl n)

theorem digitsRev_injective : Function.Injective digitsRev := by
  intro m n h
  have := congrArg ofDigitsRev h
  rwa [ofDigitsRev_digitsRev, ofDigitsRev_digitsRev] at this

theorem digitsRevAux_lt_ten : ∀ fuel n, ∀ d ∈ digitsRevAux fuel n, d < 10 := by
  intro fuel
  induction fuel with
  | zero =>
    intro n d hd
    cases n <;> simp [digitsRevAux] at hd
  | succ fuel ih =>
    intro n d hd
    cases n with
    | zero => simp [digitsRevAux] at hd
    | succ m =>
      simp only [digitsRevAux, List.mem_cons] at hd
      rcases hd with h | h
      · omega
      · exact ih _ _ h

theorem digitsRev_lt_ten (n : Nat) : ∀ d ∈ digitsRev n, d < 10 :=
  digitsRevAux_lt_ten n n

theorem digitChar10_inj : ∀ d < 10, ∀ e < 10,
    digitChar10 d = digitChar10 e → d = e := by decide

theorem map_digitChar10_inj : ∀ l1 l2 : List Nat, (∀ d ∈ l1, d < 10) →
    (∀ d ∈ l2, d < 10) → l1.map digitChar10 = l2.map digitChar10 → l1 = l2 := by
  intro l1
  induction l1 with
  | nil =>
    intro l2 _ _ h
    cases l2 with
    | nil => rfl
    | cons b bs => simp at h
  | cons a as ih =>
    intro l2 h1 h2 h
    cases l2 with
    | nil => simp at h
    | cons b bs =>
      simp only [List.map_cons, List.cons.injEq] at h
      have ha : a < 10 := h1 a (List.mem_cons_self _ _)
      have hb : b < 10 := h2 b (List.mem_cons_self _ _)
      have hab := digitChar10_inj a ha b hb h.1
      have hrest := ih bs (fun d hd => h1 d (List.mem_cons_of_mem _ hd))
        (fun d hd => h2 d (List.mem_cons_of_mem _ hd)) h.2
      rw [hab, hrest]

theorem digitsRev_ne_nil {n : Nat} (hn : n ≠ 0) : digitsRev n ≠ [] := by
  intro h
  have := ofDigitsRev_digitsRev n
  rw [h] at this
  simp [ofDigitsRev] at this
  omega

theorem natDecimal_pos_ne_zero (n : Nat) (hn : n ≠ 0) :
    String.mk ((digitsRev n).reverse.map digitChar10) ≠ "0" := by
  intro h
  have hd : (digitsRev n).reverse.map digitChar10 = ['0'] := congrArg String.data h
  rcases hld : (digitsRev n).reverse with _ | ⟨d, ds⟩
  · have : digitsRev n = [] := by
      have := congrArg List.reverse hld
      simpa using this
    exact digitsRev_ne_nil hn this
  · rw [hld] at hd
    simp only [List.map_cons, List.cons.injEq] at hd
    have hds' : ds = [] := by
      cases ds with
      | nil => rfl
      | cons x xs => exact absurd hd.2 (by simp)
    have hdmem : d ∈ digitsRev n := by
      have : d ∈ (digitsRev n).reverse := by rw [hld]; exact List.mem_cons_self _ _
      exact List.mem_reverse.mp this
    have hd10 : d < 10 := digitsRev_lt_ten n d hdmem
    have hd0 : d = 0 := digitChar10_inj d hd10 0 (by omega) hd.1
    have hrev : digitsRev n = [0] := by
      have := congrArg List.reverse hld
      simpa [hds', hd0] using this
    have hv := ofDigitsRev_digitsRev n
    rw [hrev] at hv
    simp [ofDigitsRev] at hv
    omega

theorem natDecimal_injective : Function.Injective natDecimal := by
  intro m n h
  unfold natDecimal at h
  by_cases hm : m = 0 <;> by_cases hn : n = 0
  · omega
  · rw [if_pos hm, if_neg hn] at h
    exact absurd h.symm (natDecimal_pos_ne_zero n hn)
  · rw [if_neg hm, if_pos hn] at h
    exact absurd h (natDecimal_pos_ne_zero m hm)
  · rw [if_neg hm, if_neg hn] at h
    have hd : (digitsRev m).reverse.map digitChar10
        = (digitsRev n).reverse.map digitChar10 := congrArg String.data h
    have hrev := map_digitChar10_inj _ _
      (fun d hdm => digitsRev_lt_ten m d (List.mem_reverse.mp hdm))
      (fun d hdn => digitsRev_lt_ten n d (List.mem_reverse.mp hdn)) hd
    have heq : digitsRev m = digitsRev n := by
      have := congrArg List.reverse hrev
      simpa using this
    exact digitsRev_injective heq

/-- Character-level test whether `s` starts with `pat`, Python's
`s.startswith(pat)`. -/
def charsStartWith : List Char → List Char → Bool
  | [], _ => true
  | _ :: _, [] => false
  | p :: ps, c :: cs => p = c && charsStartWith ps cs

/-- Python's `f.startswith(pat)` on strings. -/
def strStartsWith (f pat : String) : Bool := charsStartWith pat.data f.data

/-- Python's `s.split('\n')` at the character level: split at every newline,
keeping empty pieces (`''.split('\n') == ['']`). -/
def splitOnNl : List Char → List (List Char)
  | [] => [[]]
  | c :: cs =>
    if c = '\n' then [] :: splitOnNl cs
    else
      match splitOnNl cs with
      | [] => [[c]]
      | l :: ls => (c :: l) :: ls

/-- ASCII whitespace stripped by Python's `str.strip()`. -/
def isPySpace (c : Char) : Bool :=
  c = ' ' || c = '\t' || c = '\n' || c = '\r' || c = Char.ofNat 11 || c = Char.ofNat 12

/-- Python's `str.strip()`: drop whitespace from both ends. -/
def pyStrip (l : List Char) : List Char :=
  ((l.dropWhile isPySpace).reverse.dropWhile isPySpace).reverse

/-- The URL list built by the Start Processing handler (app.py line 108):
`[url.strip() for url in url_input.split('\n') if url.strip()]`. -/
def parseUrls (url_input : String) : List String :=
  ((splitOnNl url_input.data).map (fun l => String.mk (pyStrip l))).filter
    (fun s => s ≠ "")

/-- Python's `enumerate(xs, n)`. -/
def pyEnumerate {α : Type} : Nat → List α → List (Nat × α)
  | _, [] => []
  | n, a :: as => (n, a) :: pyEnumerate (n + 1) as

deriving instance DecidableEq for Except

/-- A filesystem path split as directory plus final component, so that
`os.path.dirname` and `os.path.basename` are the two projections. -/
structure Path where
  dir : String
  base : String
deriving DecidableEq

/-- Outcome of `subprocess.run(..., capture_output=True, text=True)`:
exit status and captured output.  The code never inspects any of it. -/
structure SubprocResult where
  exitcode : Int
  stdout : String
  stderr : String
deriving DecidableEq

/-- Environment seen by one `download_video` call: the outcome of the
`yt-dlp` subprocess invocation (`Except.error` when the call raises, e.g.
the binary is absent) and the outcome of listing the destination directory
afterwards. -/
structure FetchEnv where
  run : Except String SubprocResult
  listing : Except String (List String)
deriving DecidableEq

/-- The per-video result dict built by `process_video` (app.py lines 87-92). -/
structure VideoResult where
  url : String
  arabic : String
  english : String
  index : Nat
deriving DecidableEq

/-- Environment seen by one `process_video` call: the temporary directory
name, the fetch environment, and the outcomes of the speech-model call and
the translation call (`Except.error msg` when the backend raises). -/
structure JobEnv where
  tempDir : String
  fetch : FetchEnv
  transcribe : Except String String
  translate : Except String String

/-- Session state of the app: `st.session_state.processed_videos` and
`st.session_state.processing`. -/
structure BatchState where
  processed_videos : List VideoResult
  processing : Bool
deriving DecidableEq

/-- Observable events of a run: Streamlit UI calls, session-state
mutations, and the calls into the speech model and the translator. -/
inductive Event where
  | error (msg : String)
  | sidebarError (msg : String)
  | write (msg : String)
  | success (msg : String)
  | status (msg : String)
  | spinner (msg : String)
  | progress (percent : Nat)
  | transcribeCall (file : Path) (language : String)
  | translateCall (text : String) (src : String) (dest : String)
  | setProcessing (b : Bool)
  | clearResults
  | appendResult (r : VideoResult)
deriving DecidableEq

/-- Effect of one event on the session state: only `setProcessing`,
`clearResults` and `appendResult` mutate it. -/
def applyEvent (s : BatchState) : Event → BatchState
  | Event.setProcessing b => { s with processing := b }
  | Event.clearResults => { s with processed_videos := [] }
  | Event.appendResult r => { s with processed_videos := s.processed_videos ++ [r] }
  | _ => s

/-- Effect of an event sequence on the session state. -/
def applyEvents (s : BatchState) (evs : List Event) : BatchState :=
  evs.foldl applyEvent s

/-- The output stem passed to `download_video` for job `i`
(app.py line 61): `os.path.join(temp_dir, f"video_-i-")`. -/
def vpath (tempDir : String) (i : Nat) : Path :=
  ⟨tempDir, "video_" ++ natDecimal i⟩

/-- Embedding of `download_video` (app.py lines 36-51), with its emitted
events.  The whole body runs under `try`: an exception from the subprocess
call or the directory listing is caught, reported via `st.error`, and turned
into `None`.  Otherwise the destination directory is scanned for the first
file whose name starts with the basename of the output stem; the subprocess
result itself is never inspected. -/
def download_video_eff (env : FetchEnv) (url : String) (output_path : Path) :
    Option Path × List Event :=
  match env.run with
  | Except.error e => (none, [Event.error ("Download failed: " ++ e)])
  | Except.ok _ =>
    match env.listing with
    | Except.error e => (none, [Event.error ("Download failed: " ++ e)])
    | Except.ok fs =>
      match fs.filter (fun f => strStartsWith f output_path.base) with
      | [] => (none, [])
      | f :: _ => (some ⟨output_path.dir, f⟩, [])

/-- Value returned by `download_video`. -/
def download_video (env : FetchEnv) (url : String) (output_path : Path) :
    Option Path :=
  (download_video_eff env url output_path).1

/-- Body of `process_video` (app.py lines 55-92) before the outer
`except` clause: `Except.error e` models an uncaught exception (the speech
model raising) escaping to the handler at line 94. -/
def process_video_try (env : JobEnv) (url : String) (i : Nat) :
    Except String (Option VideoResult) × List Event :=
  let pre := [Event.status ("Downloading video " ++ natDecimal i ++ "..."),
              Event.progress 10]
  match download_video_eff env.fetch url (vpath env.tempDir i) with
  | (none, devs) => (Except.ok none, pre ++ devs)
  | (some f, devs) =>
    let pre2 := pre ++ devs ++
      [Event.status ("Transcribing video " ++ natDecimal i ++ "..."),
       Event.progress 40, Event.transcribeCall f "ar"]
    match env.transcribe with
    | Except.error e => (Except.error e, pre2)
    | Except.ok arabic_text =>
      let pre3 := pre2 ++
        [Event.status ("Translating video " ++ natDecimal i ++ "..."),
         Event.progress 70, Event.translateCall arabic_text "ar" "en"]
      let english_text :=
        match env.translate with
        | Except.ok t => t
        | Except.error e => "Translation failed: " ++ e
      (Except.ok (some ⟨url, arabic_text, english_text, i⟩),
       pre3 ++ [Event.progress 100,
                Event.status ("Completed video " ++ natDecimal i ++ "!")])

/-- Embedding of `process_video` (app.py lines 53-96): the body, with the
outer `except` clause converting any uncaught exception to an `st.error`
message and a `None` return. -/
def process_video_eff (env : JobEnv) (url : String) (i : Nat) :
    Option VideoResult × List Event :=
  match process_video_try env url i with
  | (Except.ok r, evs) => (r, evs)
  | (Except.error e, evs) =>
    (none, evs ++ [Event.error ("Error processing video " ++ natDecimal i
      ++ ": " ++ e)])

/-- Value returned by `process_video`. -/
def process_video (env : JobEnv) (url : String) (i : Nat) :
    Option VideoResult :=
  (process_video_eff env url i).1

/-- Events of the batch loop (app.py lines 122-135) over the enumerated
URL list, in a per-job environment `env`. -/
def batchLoopEvents (env : Nat → JobEnv) (total : Nat) :
    List (Nat × String) → List Event
  | [] => []
  | (i, u) :: rest =>
    Event.write ("### Processing Video " ++ natDecimal i ++ "/"
      ++ natDecimal total) ::
    Event.write ("**URL:** " ++ u) ::
    Event.progress 0 ::
    ((process_video_eff (env i) u i).2 ++
      (match (process_video_eff (env i) u i).1 with
       | some r => [Event.appendResult r,
                    Event.success ("✅ Video " ++ natDecimal i ++ " completed!")]
       | none => [Event.error ("❌ Video " ++ natDecimal i ++ " failed!")]) ++
      batchLoopEvents env total rest)

/-- The successful results accumulated by the batch loop, in order. -/
def runResults (env : Nat → JobEnv) (pairs : List (Nat × String)) :
    List VideoResult :=
  pairs.filterMap (fun p => process_video (env p.1) p.2 p.1)

/-- Events of the Start Processing handler (app.py lines 107-138).  The
button is disabled while `processing` is true, so a click then produces
nothing; an empty parsed URL list produces only the sidebar validation
error; otherwise the state is reset, the models are loaded, the batch loop
runs, and `processing` is lowered. -/
def startProcessingEvents (env : Nat → JobEnv) (url_input : String)
    (st : BatchState) : List Event :=
  if st.processing then []
  else
    match parseUrls url_input with
    | [] => [Event.sidebarError "Please enter at least one YouTube URL"]
    | u :: us =>
      Event.setProcessing true :: Event.clearResults ::
      Event.spinner "Loading AI models..." ::
      (batchLoopEvents env (u :: us).length (pyEnumerate 1 (u :: us)) ++
        [Event.setProcessing false, Event.success "🎉 All videos processed!"])

/-- Session state after the Start Processing handler. -/
def startProcessing (env : Nat → JobEnv) (url_input : String)
    (st : BatchState) : BatchState :=
  applyEvents st (startProcessingEvents env url_input st)

/-- UTF-8 encoding of a Unicode code point, as a list of byte values. -/
def encodeCP (n : Nat) : List Nat :=
  if n < 128 then [n]
  else if n < 2048 then [192 + n / 64, 128 + n % 64]
  else if n < 65536 then [224 + n / 4096, 128 + n / 64 % 64, 128 + n % 64]
  else [240 + n / 262144, 128 + n / 4096 % 64, 128 + n / 64 % 64, 128 + n % 64]

/-- UTF-8 bytes of one character. -/
def utf8Bytes (c : Char) : List Nat := encodeCP c.toNat

/-- UTF-8 bytes of a character sequence. -/
def encodeChars : List Char → List Nat
  | [] => []
  | c :: cs => utf8Bytes c ++ encodeChars cs

/-- UTF-8 bytes of a string, Python's `s.encode('utf-8')`. -/
def encodeUTF8 (s : String) : List Nat := encodeChars s.data

/-- Whether a byte is a UTF-8 continuation byte. -/
def isCont (b : Nat) : Bool := 128 ≤ b && b < 192

/-- Decode one UTF-8 encoded character from the front of a byte list,
returning it with the remaining bytes, or `none` on malformed input. -/
def decode1 : List Nat → Option (Char × List Nat)
  | [] => none
  | b1 :: bs =>
    if b1 < 128 then some (Char.ofNat b1, bs)
    else if b1 < 192 then none
    else if b1 < 224 then
      match bs with
      | b2 :: bs2 =>
        if isCont b2 then
          some (Char.ofNat ((b1 - 192) * 64 + (b2 - 128)), bs2)
        else none
      | [] => none
    else if b1 < 240 then
      match bs with
      | b2 :: b3 :: bs3 =>
        if isCont b2 && isCont b3 then
          some (Char.ofNat ((b1 - 224) * 4096 + (b2 - 128) * 64 + (b3 - 128)), bs3)
        else none
      | _ => none
    else if b1 < 248 then
      match bs with
      | b2 :: b3 :: b4 :: bs4 =>
        if isCont b2 && isCont b3 && isCont b4 then
          some (Char.ofNat ((b1 - 240) * 262144 + (b2 - 128) * 4096
            + (b3 - 128) * 64 + (b4 - 128)), bs4)
        else none
      | _ => none
    else none

/-- Decode a whole byte list, with fuel bounding the number of characters. -/
def decodeAux : Nat → List Nat → Option (List Char)
  | _, [] => some []
  | 0, _ :: _ => none
  | fuel + 1, b :: bs =>
    match decode1 (b :: bs) with
    | none => none
    | some (c, rest) => (decodeAux fuel rest).map (fun cs => c :: cs)

/-- UTF-8 decoding of a byte list: `none` on malformed input. -/
def decodeUTF8 (l : List Nat) : Option (List Char) := decodeAux l.length l

theorem char_toNat_lt (c : Char) : c.toNat < 1114112 := by
  rcases c.valid with h | h
  · have h1 : c.val.toNat < 55296 := UInt32.toNat_lt_of_lt (by decide) h
    exact Nat.lt_trans h1 (by omega)
  · exact UInt32.toNat_lt_of_lt (by decide) h.2

theorem isCont_eq_true {b : Nat} (h1 : 128 ≤ b) (h2 : b < 192) :
    isCont b = true := by
  simp only [isCont, Bool.and_eq_true, decide_eq_true_eq]
  omega

theorem utf8Bytes_length_pos (c : Char) : 0 < (utf8Bytes c).length := by
  unfold utf8Bytes encodeCP
  repeat' split
  all_goals simp

theorem decode1_utf8Bytes_append (c : Char) (rest : List Nat) :
    decode1 (utf8Bytes c ++ rest) = some (c, rest) := by
  have hlt := char_toNat_lt c
  have hval := Char.ofNat_toNat c
  unfold utf8Bytes encodeCP
  by_cases h1 : c.toNat < 128
  · rw [if_pos h1]
    simp only [List.cons_append, List.nil_append]
    simp only [decode1]
    rw [if_pos h1, hval]
  · rw [if_neg h1]
    by_cases h2 : c.toNat < 2048
    · rw [if_pos h2]
      simp only [List.cons_append, List.nil_append]
      simp only [decode1]
      rw [if_neg (by omega), if_neg (by omega), if_pos (by omega)]
      rw [if_pos (isCont_eq_true (by omega) (by omega))]
      have harith : (192 + c.toNat / 64 - 192) * 64 + (128 + c.toNat % 64 - 128)
          = c.toNat := by omega
      rw [harith, hval]
    · rw [if_neg h2]
      by_cases h3 : c.toNat < 65536
      · rw [if_pos h3]
        simp only [List.cons_append, List.nil_append]
        simp only [decode1]
        rw [if_neg (by omega), if_neg (by omega), if_neg (by omega),
          if_pos (by omega)]
        rw [if_pos (by rw [isCont_eq_true (b := 128 + c.toNat / 64 % 64)
              (by omega) (by omega),
            isCont_eq_true (b := 128 + c.toNat % 64) (by omega) (by omega)]; rfl)]
        have harith : (224 + c.toNat / 4096 - 224) * 4096
            + (128 + c.toNat / 64 % 64 - 128) * 64 + (128 + c.toNat % 64 - 128)
            = c.toNat := by omega
        rw [harith, hval]
      · rw [if_neg h3]
        simp only [List.cons_append, List.nil_append]
        simp only [decode1]
        rw [if_neg (by omega), if_neg (by omega), if_neg (by omega),
          if_neg (by omega), if_pos (by omega)]
        rw [if_pos (by rw [isCont_eq_true (b := 128 + c.toNat / 4096 % 64)
              (by omega) (by omega),
            isCont_eq_true (b := 128 + c.toNat / 64 % 64) (by omega) (by omega),
            isCont_eq_true (b := 128 + c.toNat % 64) (by omega) (by omega)]; rfl)]
        have harith : (240 + c.toNat / 262144 - 240) * 262144
            + (128 + c.toNat / 4096 % 64 - 128) * 4096
            + (128 + c.toNat / 64 % 64 - 128) * 64 + (128 + c.toNat % 64 - 128)
            = c.toNat := by omega
        rw [harith, hval]

theorem decodeAux_encodeChars : ∀ fuel (l : List Char), l.length ≤ fuel →
    decodeAux fuel (encodeChars l) = some l := by
  intro fuel
  induction fuel with
  | zero =>
    intro l hl
    have : l = [] := by
      cases l with
      | nil => rfl
      | cons c cs => simp at hl
    rw [this]
    rfl
  | succ fuel ih =>
    intro l hl
    cases l with
    | nil => rfl
    | cons c cs =>
      have hd := decode1_utf8Bytes_append c (encodeChars cs)
      rcases hub : utf8Bytes c with _ | ⟨b, tb⟩
      · exact absurd (utf8Bytes_length_pos c) (by rw [hub]; simp)
      · rw [hub, List.cons_append] at hd
        show decodeAux (fuel + 1) (utf8Bytes c ++ encodeChars cs) = _
        rw [hub, List.cons_append]
        rw [decodeAux, hd]
        dsimp only
        rw [ih cs (by simpa using hl)]
        rfl

/-- Decoding inverts encoding: UTF-8 round-trip at the byte level. -/
theorem decodeUTF8_encodeUTF8 (s : String) :
    decodeUTF8 (encodeUTF8 s) = some s.data := by
  have hlen : ∀ l : List Char, l.length ≤ (encodeChars l).length := by
    intro l
    induction l with
    | nil => simp [encodeChars]
    | cons c cs ih =>
      have := utf8Bytes_length_pos c
      simp only [encodeChars, List.length_append, List.length_cons]
      omega
  exact decodeAux_encodeChars _ s.data (hlen s.data)

/-- The `'='*50` separator of the combined transcript file. -/
def separatorLine : String := String.mk (List.replicate 50 '=')

/-- Content of `transcript_arabic_<i>.txt` (app.py line 184). -/
def arabicContent (v : VideoResult) : String :=
  "Video URL: " ++ v.url ++ "\n\nARABIC TRANSCRIPT:\n" ++ v.arabic

/-- Content of `transcript_english_<i>.txt` (app.py line 188). -/
def englishContent (v : VideoResult) : String :=
  "Video URL: " ++ v.url ++ "\n\nENGLISH TRANSLATION:\n" ++ v.english

/-- Content of `transcript_both_<i>.txt` (app.py line 192). -/
def combinedContent (v : VideoResult) : String :=
  "Video URL: " ++ v.url ++ "\n\nARABIC TRANSCRIPT:\n" ++ v.arabic
    ++ "\n\n" ++ separatorLine ++ "\n\nENGLISH TRANSLATION:\n" ++ v.english

/-- Name of the source-only artifact for index `i`. -/
def arabicName (i : Nat) : String :=
  "transcript_arabic_" ++ (natDecimal i ++ ".txt")

/-- Name of the target-only artifact for index `i`. -/
def englishName (i : Nat) : String :=
  "transcript_english_" ++ (natDecimal i ++ ".txt")

/-- Name of the combined artifact for index `i`. -/
def bothName (i : Nat) : String :=
  "transcript_both_" ++ (natDecimal i ++ ".txt")

/-- The three text artifacts written for one result (app.py lines 183-193). -/
def zipEntriesOf (v : VideoResult) : List (String × String) :=
  [(arabicName v.index, arabicContent v),
   (englishName v.index, englishContent v),
   (bothName v.index, combinedContent v)]

/-- The archive entry list of the Download All Transcripts handler
(app.py lines 181-193): three text artifacts per result, in result order. -/
def zipEntries : List VideoResult → List (String × String)
  | [] => []
  | v :: vs => zipEntriesOf v ++ zipEntries vs

/-- The archive at the byte level: each artifact's content is encoded as
UTF-8 before `zipf.writestr` (app.py `content.encode('utf-8')`). -/
def zipArchive (results : List VideoResult) : List (String × List Nat) :=
  (zipEntries results).map (fun e => (e.1, encodeUTF8 e.2))

theorem natDecimal_txt_inj {i j : Nat}
    (h : natDecimal i ++ ".txt" = natDecimal j ++ ".txt") : i = j := by
  have hd := congrArg String.data h
  rw [String.data_append, String.data_append] at hd
  have := List.append_cancel_right hd
  exact natDecimal_injective (String.ext this)

theorem arabicName_inj {i j : Nat} (h : arabicName i = arabicName j) : i = j := by
  unfold arabicName at h
  have hd := congrArg String.data h
  rw [String.data_append, String.data_append] at hd
  exact natDecimal_txt_inj (String.ext (List.append_cancel_left hd))

theorem englishName_inj {i j : Nat} (h : englishName i = englishName j) : i = j := by
  unfold englishName at h
  have hd := congrArg String.data h
  rw [String.data_append, String.data_append] at hd
  exact natDecimal_txt_inj (String.ext (List.append_cancel_left hd))

theorem bothName_inj {i j : Nat} (h : bothName i = bothName j) : i = j := by
  unfold bothName at h
  have hd := congrArg String.data h
  rw [String.data_append, String.data_append] at hd
  exact natDecimal_txt_inj (String.ext (List.append_cancel_left hd))

theorem append_ne_of_getElem (a b s t : String) (n : Nat)
    (ha : n < a.data.length) (hb : n < b.data.length)
    (hne : a.data[n]? ≠ b.data[n]?) : a ++ s ≠ b ++ t := by
  intro h
  have hd := congrArg String.data h
  rw [String.data_append, String.data_append] at hd
  have hget := congrArg (fun l => l[n]?) hd
  simp only at hget
  rw [List.getElem?_append_left ha, List.getElem?_append_left hb] at hget
  exact hne hget

theorem arabicName_ne_englishName (i j : Nat) : arabicName i ≠ englishName j :=
  append_ne_of_getElem "transcript_arabic_" "transcript_english_" _ _ 11
    (by decide) (by decide) (by decide)

theorem arabicName_ne_bothName (i j : Nat) : arabicName i ≠ bothName j :=
  append_ne_of_getElem "transcript_arabic_" "transcript_both_" _ _ 11
    (by decide) (by decide) (by decide)

theorem englishName_ne_bothName (i j : Nat) : englishName i ≠ bothName j :=
  append_ne_of_getElem "transcript_english_" "transcript_both_" _ _ 11
    (by decide) (by decide) (by decide)

/-- Whether an event mutates the session state under `applyEvent`. -/
def mutatesState : Event → Bool
  | Event.setProcessing _ => true
  | Event.clearResults => true
  | Event.appendResult _ => true
  | _ => false

theorem applyEvents_cons (s : BatchState) (e : Event) (evs : List Event) :
    applyEvents s (e :: evs) = applyEvents (applyEvent s e) evs := rfl

theorem applyEvents_append (s : BatchState) (l1 l2 : List Event) :
    applyEvents s (l1 ++ l2) = applyEvents (applyEvents s l1) l2 :=
  List.foldl_append applyEvent s l1 l2

theorem applyEvent_of_not_mutates {e : Event} (h : mutatesState e = false)
    (s : BatchState) : applyEvent s e = s := by
  cases e <;> first
    | rfl
    | simp [mutatesState] at h

theorem applyEvents_of_not_mutates {evs : List Event}
    (h : ∀ e ∈ evs, mutatesState e = false) (s : BatchState) :
    applyEvents s evs = s := by
  induction evs generalizing s with
  | nil => rfl
  | cons e rest ih =>
    rw [applyEvents_cons,
      applyEvent_of_not_mutates (h e (List.mem_cons_self _ _)) s]
    exact ih (fun e' he' => h e' (List.mem_cons_of_mem _ he')) s

theorem applyEvent_processing_of_ne_setProcessing {e : Event}
    (h : ∀ b, e ≠ Event.setProcessing b) (s : BatchState) :
    (applyEvent s e).processing = s.processing := by
  cases e <;> first
    | rfl
    | exact absurd rfl (h _)

theorem applyEvents_processing_of_no_setProcessing {evs : List Event}
    (h : ∀ b, Event.setProcessing b ∉ evs) (s : BatchState) :
    (applyEvents s evs).processing = s.processing := by
  induction evs generalizing s with
  | nil => rfl
  | cons e rest ih =>
    rw [applyEvents_cons]
    rw [ih (fun b hb => h b (List.mem_cons_of_mem _ hb))]
    exact applyEvent_processing_of_ne_setProcessing
      (fun b hb => h b (hb ▸ List.mem_cons_self _ _)) s

theorem download_video_eff_events (env : FetchEnv) (u : String) (p : Path) :
    ∀ e ∈ (download_video_eff env u p).2, mutatesState e = false := by
  intro e he
  unfold download_video_eff at he
  rcases env with ⟨r, ls⟩
  cases r with
  | error m =>
    simp only [List.mem_singleton] at he
    rw [he]
    rfl
  | ok rr =>
    cases ls with
    | error m =>
      simp only [List.mem_singleton] at he
      rw [he]
      rfl
    | ok fs =>
      dsimp only at he
      cases hf : fs.filter (fun f => strStartsWith f p.base) with
      | nil =>
        rw [hf] at he
        simp at he
      | cons a as =>
        rw [hf] at he
        simp at he

theorem process_video_try_events (env : JobEnv) (u : String) (i : Nat) :
    ∀ e ∈ (process_video_try env u i).2, mutatesState e = false := by
  intro e he
  unfold process_video_try at he
  have hdl := download_video_eff_events env.fetch u (vpath env.tempDir i)
  rcases hdle : download_video_eff env.fetch u (vpath env.tempDir i) with ⟨od, devs⟩
  rw [hdle] at he hdl
  cases od with
  | none =>
    simp only [List.mem_append, List.mem_cons, List.not_mem_nil, or_false,
      or_assoc] at he
    rcases he with h | h | h
    · rw [h]; rfl
    · rw [h]; rfl
    · exact hdl e h
  | some f =>
    rcases htr : env.transcribe with m | a
    · rw [htr] at he
      simp only [List.mem_append, List.mem_cons, List.not_mem_nil, or_false,
        or_assoc] at he
      rcases he with h | h | h | h | h | h
      · rw [h]; rfl
      · rw [h]; rfl
      · exact hdl e h
      · rw [h]; rfl
      · rw [h]; rfl
      · rw [h]; rfl
    · rw [htr] at he
      simp only [List.mem_append, List.mem_cons, List.not_mem_nil, or_false,
        or_assoc] at he
      rcases he with h | h | h | h | h | h | h | h | h | h | h
      · rw [h]; rfl
      · rw [h]; rfl
      · exact hdl e h
      · rw [h]; rfl
      · rw [h]; rfl
      · rw [h]; rfl
      · rw [h]; rfl
      · rw [h]; rfl
      · rw [h]; rfl
      · rw [h]; rfl
      · rw [h]; rfl

theorem process_video_eff_events (env : JobEnv) (u : String) (i : Nat) :
    ∀ e ∈ (process_video_eff env u i).2, mutatesState e = false := by
  intro e he
  unfold process_video_eff at he
  have htr := process_video_try_events env u i
  rcases hpt : process_video_try env u i with ⟨res, evs⟩
  rw [hpt] at he htr
  cases res with
  | ok r => exact htr e he
  | error m =>
    dsimp only at he
    rcases List.mem_append.mp he with h | h
    · exact htr e h
    · simp only [List.mem_singleton] at h
      rw [h]
      rfl

theorem applyEvents_process_video (env : JobEnv) (u : String) (i : Nat)
    (s : BatchState) : applyEvents s (process_video_eff env u i).2 = s :=
  applyEvents_of_not_mutates (process_video_eff_events env u i) s

theorem pyEnumerate_length {α : Type} : ∀ (n : Nat) (l : List α),
    (pyEnumerate n l).length = l.length := by
  intro n l
  induction l generalizing n with
  | nil => rfl
  | cons a as ih => simp [pyEnumerate, ih]

theorem pyEnumerate_mem_bounds {α : Type} : ∀ (n : Nat) (l : List α) (i : Nat)
    (a : α), (i, a) ∈ pyEnumerate n l → n ≤ i ∧ i < n + l.length := by
  intro n l
  induction l generalizing n with
  | nil =>
    intro i a h
    simp [pyEnumerate] at h
  | cons x xs ih =>
    intro i a h
    simp only [pyEnumerate, List.mem_cons, Prod.mk.injEq] at h
    rcases h with ⟨h1, _⟩ | h
    · simp only [List.length_cons]
      omega
    · have := ih (n + 1) i a h
      simp only [List.length_cons]
      omega

theorem pyEnumerate_functional {α : Type} : ∀ (n : Nat) (l : List α) (i : Nat)
    (a b : α), (i, a) ∈ pyEnumerate n l → (i, b) ∈ pyEnumerate n l → a = b := by
  intro n l
  induction l generalizing n with
  | nil =>
    intro i a b h
    simp [pyEnumerate] at h
  | cons x xs ih =>
    intro i a b ha hb
    simp only [pyEnumerate, List.mem_cons, Prod.mk.injEq] at ha hb
    rcases ha with ⟨hi, hxa⟩ | ha <;> rcases hb with ⟨hi', hxb⟩ | hb
    · rw [hxa, hxb]
    · exact absurd (pyEnumerate_mem_bounds (n + 1) xs i b hb).1 (by omega)
    · exact absurd (pyEnumerate_mem_bounds (n + 1) xs i a ha).1 (by omega)
    · exact ih (n + 1) i a b ha hb

theorem pyEnumerate_fst_pairwise {α : Type} : ∀ (n : Nat) (l : List α),
    (pyEnumerate n l).Pairwise (fun p q => p.1 < q.1) := by
  intro n l
  induction l generalizing n with
  | nil => exact List.Pairwise.nil
  | cons x xs ih =>
    refine List.Pairwise.cons ?_ (ih (n + 1))
    intro q hq
    have := pyEnumerate_mem_bounds (n + 1) xs q.1 q.2 (by simpa using hq)
    simp only
    omega

/-- The value of `process_video` as a function of the per-job environment:
null when the download yields null or the speech model raises; otherwise a
result carrying the job's url and index, the transcript, and either the
translation or its fallback text. -/
theorem process_video_eq (env : JobEnv) (u : String) (i : Nat) :
    process_video env u i =
      match download_video env.fetch u (vpath env.tempDir i) with
      | none => none
      | some _ =>
        match env.transcribe with
        | Except.error _ => none
        | Except.ok a =>
          some ⟨u, a,
            (match env.translate with
             | Except.ok t => t
             | Except.error e => "Translation failed: " ++ e), i⟩ := by
  unfold process_video process_video_eff process_video_try download_video
  rcases hdle : download_video_eff env.fetch u (vpath env.tempDir i) with ⟨od, devs⟩
  cases od with
  | none => rfl
  | some f =>
    rcases htr : env.transcribe with m | a
    · rfl
    · rfl

theorem process_video_some (env : JobEnv) (u : String) (i : Nat)
    (r : VideoResult) (h : process_video env u i = some r) :
    r.index = i ∧ r.url = u := by
  rw [process_video_eq] at h
  rcases hdl : download_video env.fetch u (vpath env.tempDir i) with _ | f
  · rw [hdl] at h
    simp at h
  · rw [hdl] at h
    rcases htr : env.transcribe with m | a
    · rw [htr] at h
      simp at h
    · rw [htr] at h
      simp only [Option.some.injEq] at h
      subst h
      exact ⟨rfl, rfl⟩

theorem runResults_nil (env : Nat → JobEnv) : runResults env [] = [] := rfl

theorem runResults_cons (env : Nat → JobEnv) (i : Nat) (u : String)
    (rest : List (Nat × String)) :
    runResults env ((i, u) :: rest)
      = (match process_video (env i) u i with
         | some r => r :: runResults env rest
         | none => runResults env rest) := by
  unfold runResults
  rw [List.filterMap_cons]
  dsimp only
  cases hpv : process_video (env i) u i
  · rfl
  · rfl

theorem runResults_length_le (env : Nat → JobEnv) (pairs : List (Nat × String)) :
    (runResults env pairs).length ≤ pairs.length :=
  List.length_filterMap_le _ _

theorem runResults_mem (env : Nat → JobEnv) (pairs : List (Nat × String))
    (r : VideoResult) : r ∈ runResults env pairs ↔
      ∃ p ∈ pairs, process_video (env p.1) p.2 p.1 = some r := by
  unfold runResults
  rw [List.mem_filterMap]

theorem runResults_map_index_sublist (env : Nat → JobEnv) :
    ∀ pairs : List (Nat × String),
      List.Sublist ((runResults env pairs).map VideoResult.index)
        (pairs.map Prod.fst) := by
  intro pairs
  induction pairs with
  | nil => simp [runResults_nil]
  | cons p rest ih =>
    rcases p with ⟨i, u⟩
    rw [runResults_cons]
    rcases hpv : process_video (env i) u i with _ | r
    · exact List.Sublist.cons _ ih
    · have hidx := (process_video_some (env i) u i r hpv).1
      simp only [List.map_cons, hidx]
      exact List.Sublist.cons₂ _ ih

theorem applyEvents_batchLoopEvents (env : Nat → JobEnv) (N : Nat) :
    ∀ (pairs : List (Nat × String)) (s : BatchState),
      applyEvents s (batchLoopEvents env N pairs)
        = ⟨s.processed_videos ++ runResults env pairs, s.processing⟩ := by
  intro pairs
  induction pairs with
  | nil =>
    intro s
    rcases s with ⟨pv, pr⟩
    simp [batchLoopEvents, applyEvents, runResults_nil]
  | cons p rest ih =>
    rcases p with ⟨i, u⟩
    intro s
    rw [batchLoopEvents, applyEvents_cons, applyEvents_cons, applyEvents_cons,
      applyEvents_append, applyEvents_append, applyEvents_process_video]
    have hs3 : applyEvent (applyEvent (applyEvent s
        (Event.write ("### Processing Video " ++ natDecimal i ++ "/"
          ++ natDecimal N)))
        (Event.write ("**URL:** " ++ u))) (Event.progress 0) = s := rfl
    rw [hs3, runResults_cons]
    rcases hpv : process_video (env i) u i with _ | r
    · have : (process_video_eff (env i) u i).1 = none := hpv
      rw [this]
      have happly : applyEvents s [Event.error ("❌ Video " ++ natDecimal i
          ++ " failed!")] = s := rfl
      rw [happly, ih s]
    · have : (process_video_eff (env i) u i).1 = some r := hpv
      rw [this]
      have happly : applyEvents s [Event.appendResult r,
          Event.success ("✅ Video " ++ natDecimal i ++ " completed!")]
          = ⟨s.processed_videos ++ [r], s.processing⟩ := rfl
      rw [happly, ih]
      simp

theorem batchLoopEvents_no_setProcessing (env : Nat → JobEnv) (N : Nat) :
    ∀ (pairs : List (Nat × String)) (b : Bool),
      Event.setProcessing b ∉ batchLoopEvents env N pairs := by
  intro pairs
  induction pairs with
  | nil => intro b h; simp [batchLoopEvents] at h
  | cons p rest ih =>
    rcases p with ⟨i, u⟩
    intro b h
    simp only [batchLoopEvents, List.mem_cons, List.mem_append, or_assoc] at h
    rcases h with h | h | h | h | h
    · exact absurd h (by simp)
    · exact absurd h (by simp)
    · exact absurd h (by simp)
    · exact absurd (process_video_eff_events (env i) u i _ h) (by simp [mutatesState])
    · rcases hpv : (process_video_eff (env i) u i).1 with _ | r
      · rw [hpv] at h
        simp only [List.mem_append, List.mem_cons, List.not_mem_nil, or_false,
          or_assoc] at h
        rcases h with h | h
        · exact absurd h (by simp)
        · exact ih b h
      · rw [hpv] at h
        simp only [List.mem_append, List.mem_cons, List.not_mem_nil, or_false,
          or_assoc] at h
        rcases h with h | h | h
        · exact absurd h (by simp)
        · exact absurd h (by simp)
        · exact ih b h

theorem appendResult_mem_batchLoopEvents (env : Nat → JobEnv) (N : Nat) :
    ∀ (pairs : List (Nat × String)) (r : VideoResult),
      Event.appendResult r ∈ batchLoopEvents env N pairs →
      ∃ p ∈ pairs, process_video (env p.1) p.2 p.1 = some r := by
  intro pairs
  induction pairs with
  | nil => intro r h; simp [batchLoopEvents] at h
  | cons p rest ih =>
    rcases p with ⟨i, u⟩
    intro r h
    simp only [batchLoopEvents, List.mem_cons, List.mem_append, or_assoc] at h
    rcases h with h | h | h | h | h
    · exact absurd h (by simp)
    · exact absurd h (by simp)
    · exact absurd h (by simp)
    · exact absurd (process_video_eff_events (env i) u i _ h) (by simp [mutatesState])
    · rcases hpv : (process_video_eff (env i) u i).1 with _ | r'
      · rw [hpv] at h
        simp only [List.mem_append, List.mem_cons, List.not_mem_nil, or_false,
          or_assoc] at h
        rcases h with h | h
        · exact absurd h (by simp)
        · rcases ih r h with ⟨q, hq, hqr⟩
          exact ⟨q, List.mem_cons_of_mem _ hq, hqr⟩
      · rw [hpv] at h
        simp only [List.mem_append, List.mem_cons, List.not_mem_nil, or_false,
          or_assoc] at h
        rcases h with h | h | h
        · simp only [Event.appendResult.injEq] at h
          exact ⟨(i, u), List.mem_cons_self _ _, by rw [h]; exact hpv⟩
        · exact absurd h (by simp)
        · rcases ih r h with ⟨q, hq, hqr⟩
          exact ⟨q, List.mem_cons_of_mem _ hq, hqr⟩

theorem startProcessingEvents_of_processing (env : Nat → JobEnv)
    (input : String) (st : BatchState) (h : st.processing = true) :
    startProcessingEvents env input st = [] := by
  unfold startProcessingEvents
  rw [if_pos h]

theorem startProcessingEvents_of_empty (env : Nat → JobEnv) (input : String)
    (st : BatchState) (hst : st.processing = false)
    (h : parseUrls input = []) :
    startProcessingEvents env input st
      = [Event.sidebarError "Please enter at least one YouTube URL"] := by
  unfold startProcessingEvents
  rw [if_neg (by simp [hst]), h]

theorem startProcessingEvents_accepted (env : Nat → JobEnv) (input : String)
    (st : BatchState) (hst : st.processing = false) (u : String)
    (us : List String) (h : parseUrls input = u :: us) :
    startProcessingEvents env input st
      = Event.setProcessing true :: Event.clearResults ::
        Event.spinner "Loading AI models..." ::
        (batchLoopEvents env (u :: us).length (pyEnumerate 1 (u :: us)) ++
          [Event.setProcessing false,
           Event.success "🎉 All videos processed!"]) := by
  unfold startProcessingEvents
  rw [if_neg (by simp [hst]), h]

theorem startProcessing_accepted (env : Nat → JobEnv) (input : String)
    (st : BatchState) (hst : st.processing = false)
    (hne : parseUrls input ≠ []) :
    startProcessing env input st
      = ⟨runResults env (pyEnumerate 1 (parseUrls input)), false⟩ := by
  rcases hp : parseUrls input with _ | ⟨u, us⟩
  · exact absurd hp hne
  · unfold startProcessing
    rw [startProcessingEvents_accepted env input st hst u us hp]
    rw [applyEvents_cons, applyEvents_cons, applyEvents_cons, applyEvents_append]
    have h3 : applyEvent (applyEvent (applyEvent st (Event.setProcessing true))
        Event.clearResults) (Event.spinner "Loading AI models...")
        = ⟨[], true⟩ := rfl
    rw [h3, applyEvents_batchLoopEvents]
    rfl

theorem startProcessing_of_processing (env : Nat → JobEnv) (input : String)
    (st : BatchState) (h : st.processing = true) :
    startProcessing env input st = st := by
  unfold startProcessing
  rw [startProcessingEvents_of_processing env input st h]
  rfl

theorem startProcessing_of_empty (env : Nat → JobEnv) (input : String)
    (st : BatchState) (hst : st.processing = false)
    (h : parseUrls input = []) : startProcessing env input st = st := by
  unfold startProcessing
  rw [startProcessingEvents_of_empty env input st hst h]
  rfl

/-- Whether an artifact name is one of the three names of index `i`. -/
def matchesIndex (i : Nat) (name : String) : Bool :=
  name = arabicName i || name = englishName i || name = bothName i

theorem zipEntries_cons (v : VideoResult) (vs : List VideoResult) :
    zipEntries (v :: vs) = zipEntriesOf v ++ zipEntries vs := rfl

theorem filter_zipEntriesOf_self (v : VideoResult) :
    (zipEntriesOf v).filter (fun e => matchesIndex v.index e.1)
      = zipEntriesOf v := by
  simp [zipEntriesOf, matchesIndex]

theorem filter_zipEntriesOf_ne (i : Nat) (w : VideoResult) (h : w.index ≠ i) :
    (zipEntriesOf w).filter (fun e => matchesIndex i e.1) = [] := by
  have h1 : arabicName w.index ≠ arabicName i := fun hh => h (arabicName_inj hh)
  have h2 : englishName w.index ≠ englishName i :=
    fun hh => h (englishName_inj hh)
  have h3 : bothName w.index ≠ bothName i := fun hh => h (bothName_inj hh)
  have h4 : arabicName w.index ≠ englishName i := arabicName_ne_englishName _ _
  have h5 : arabicName w.index ≠ bothName i := arabicName_ne_bothName _ _
  have h6 : englishName w.index ≠ arabicName i :=
    fun hh => arabicName_ne_englishName i w.index hh.symm
  have h7 : englishName w.index ≠ bothName i := englishName_ne_bothName _ _
  have h8 : bothName w.index ≠ arabicName i :=
    fun hh => arabicName_ne_bothName i w.index hh.symm
  have h9 : bothName w.index ≠ englishName i :=
    fun hh => englishName_ne_bothName i w.index hh.symm
  simp [zipEntriesOf, matchesIndex, h1, h2, h3, h4, h5, h6, h7, h8, h9]

theorem zipEntries_filter_nil (i : Nat) : ∀ results : List VideoResult,
    (∀ w ∈ results, w.index ≠ i) →
    (zipEntries results).filter (fun e => matchesIndex i e.1) = [] := by
  intro results
  induction results with
  | nil => intro _; rfl
  | cons w rest ih =>
    intro h
    rw [zipEntries_cons, List.filter_append,
      filter_zipEntriesOf_ne i w (h w (List.mem_cons_self _ _)),
      ih (fun w' hw' => h w' (List.mem_cons_of_mem _ hw'))]
    rfl

theorem zipEntries_filter_eq (results : List VideoResult)
    (hnd : (results.map VideoResult.index).Nodup) (v : VideoResult)
    (hv : v ∈ results) :
    (zipEntries results).filter (fun e => matchesIndex v.index e.1)
      = zipEntriesOf v := by
  induction results with
  | nil => simp at hv
  | cons w rest ih =>
    simp only [List.map_cons, List.nodup_cons] at hnd
    rw [zipEntries_cons, List.filter_append]
    rcases List.mem_cons.mp hv with hveq | hvmem
    · subst hveq
      rw [filter_zipEntriesOf_self]
      rw [zipEntries_filter_nil v.index rest (by
        intro w' hw' hidx
        exact hnd.1 (hidx ▸ List.mem_map_of_mem VideoResult.index hw'))]
      rw [List.append_nil]
    · have hwne : w.index ≠ v.index := by
        intro hh
        exact hnd.1 (hh ▸ List.mem_map_of_mem VideoResult.index hvmem)
      rw [filter_zipEntriesOf_ne v.index w hwne, ih hnd.2 hvmem,
        List.nil_append]

theorem zipArchive_filter_eq (results : List VideoResult)
    (hnd : (results.map VideoResult.index).Nodup) (v : VideoResult)
    (hv : v ∈ results) :
    (zipArchive results).filter (fun e => matchesIndex v.index e.1)
      = (zipEntriesOf v).map (fun e => (e.1, encodeUTF8 e.2)) := by
  unfold zipArchive
  rw [List.filter_map]
  have hcomp : ((fun e : String × List Nat => matchesIndex v.index e.1)
        ∘ fun e : String × String => (e.1, encodeUTF8 e.2))
      = (fun e : String × String => matchesIndex v.index e.1) := rfl
  rw [hcomp, zipEntries_filter_eq results hnd v hv]

theorem download_video_eff_events_shape (env : FetchEnv) (u : String)
    (p : Path) : (download_video_eff env u p).2 = []
      ∨ ∃ m, (download_video_eff env u p).2 = [Event.error m] := by
  unfold download_video_eff
  rcases env with ⟨r, ls⟩
  cases r with
  | error e => exact Or.inr ⟨"Download failed: " ++ e, rfl⟩
  | ok rr =>
    cases ls with
    | error e => exact Or.inr ⟨"Download failed: " ++ e, rfl⟩
    | ok fs =>
      dsimp only
      cases fs.filter (fun f => strStartsWith f p.base) with
      | nil => exact Or.inl rfl
      | cons a as => exact Or.inl rfl

/-- A fetch environment whose subprocess exits cleanly and leaves one file
matching the requested stem. -/
def fenvOK : FetchEnv := ⟨Except.ok ⟨0, "", ""⟩, Except.ok ["video_1.mp4"]⟩

/-- A fetch environment whose subprocess exits cleanly but leaves no file. -/
def fenvEmpty : FetchEnv := ⟨Except.ok ⟨0, "", ""⟩, Except.ok []⟩

/-- A fetch environment whose subprocess invocation raises (e.g. the
`yt-dlp` binary is absent). -/
def fenvRaise : FetchEnv :=
  ⟨Except.error "FileNotFoundError: yt-dlp", Except.ok []⟩

/-- A job environment in which every stage succeeds. -/
def jenvOK : JobEnv := ⟨"/tmp/w", fenvOK, Except.ok "ar text", Except.ok "en text"⟩

/-- A job environment whose download finds no file. -/
def jenvFail : JobEnv := ⟨"/tmp/w", fenvEmpty, Except.ok "x", Except.ok "y"⟩

/-- A job environment whose downloader invocation raises. -/
def jenvRaise : JobEnv := ⟨"/tmp/w", fenvRaise, Except.ok "x", Except.ok "y"⟩

/-- A job environment whose translation backend raises. -/
def jenvTransFail : JobEnv :=
  ⟨"/tmp/w", fenvOK, Except.ok "ar text", Except.error "timeout"⟩

/-- A batch environment in which every job succeeds (for index 1). -/
def envOK : Nat → JobEnv := fun _ => jenvOK

/-- A batch environment in which every download finds no file. -/
def envFail : Nat → JobEnv := fun _ => jenvFail

/-- C1, counterexample: the claim says `download_video` returns null whenever
the downloader subprocess fails, but with exit status 1 (a failed
subprocess) and a matching file present in the destination directory the
code returns that file, not null — the exit status is never inspected. -/
theorem C1_counterexample :
    (⟨Except.ok ⟨1, "", "ERROR: unable to download"⟩,
        Except.ok ["video_1.mp4"]⟩ : FetchEnv).run
      = Except.ok ⟨1, "", "ERROR: unable to download"⟩
    ∧ download_video
        ⟨Except.ok ⟨1, "", "ERROR: unable to download"⟩,
          Except.ok ["video_1.mp4"]⟩
        "https://u" ⟨"/tmp/w", "video_1"⟩
      = some ⟨"/tmp/w", "video_1.mp4"⟩ :=
  ⟨rfl, by decide⟩

/-- C1 (amended): `download_video` returns null iff the subprocess
invocation or the directory listing raises an exception, or no file whose
name starts with the basename of the destination stem is present after the
call; the subprocess's exit status and captured output are ignored
entirely, and on an exception the user-visible error carries the
exception's message (not the subprocess's diagnostic output). -/
theorem C1_amended_fetch (env : FetchEnv) (url : String) (p : Path) :
    (download_video env url p = none ↔
      (∃ e, env.run = Except.error e) ∨ (∃ e, env.listing = Except.error e) ∨
      (∃ r fs, env.run = Except.ok r ∧ env.listing = Except.ok fs ∧
        fs.filter (fun f => strStartsWith f p.base) = []))
    ∧ (∀ e, env.run = Except.error e →
        (download_video_eff env url p).2
          = [Event.error ("Download failed: " ++ e)])
    ∧ (∀ r r' : SubprocResult,
        download_video ⟨Except.ok r, env.listing⟩ url p
          = download_video ⟨Except.ok r', env.listing⟩ url p) := by
  rcases env with ⟨run, listing⟩
  refine ⟨?_, ?_, ?_⟩
  · cases run with
    | error e =>
      constructor
      · intro _
        exact Or.inl ⟨e, rfl⟩
      · intro _
        rfl
    | ok r =>
      cases listing with
      | error e =>
        constructor
        · intro _
          exact Or.inr (Or.inl ⟨e, rfl⟩)
        · intro _
          rfl
      | ok fs =>
        unfold download_video download_video_eff
        dsimp only
        rcases hf : fs.filter (fun f => strStartsWith f p.base) with _ | ⟨f, rest⟩
        · constructor
          · intro _
            exact Or.inr (Or.inr ⟨r, fs, rfl, rfl, hf⟩)
          · intro _
            rfl
        · constructor
          · intro hnone
            simp at hnone
          · intro hdisj
            rcases hdisj with ⟨e, he⟩ | ⟨e, he⟩ | ⟨r', fs', hr', hf', hfil⟩
            · cases he
            · cases he
            · cases hf'
              rw [hfil] at hf
              cases hf
  · intro e he
    cases run with
    | error e' =>
      cases he
      rfl
    | ok r => cases he
  · intro r r'
    cases listing with
    | error e => rfl
    | ok fs =>
      unfold download_video download_video_eff
      dsimp only

theorem C1_amended_fetch_witness :
    fenvRaise.run = Except.error "FileNotFoundError: yt-dlp"
    ∧ (download_video_eff fenvRaise "https://u" ⟨"/tmp/w", "video_1"⟩).2
      = [Event.error ("Download failed: " ++ "FileNotFoundError: yt-dlp")] :=
  ⟨rfl, (C1_amended_fetch fenvRaise "https://u" ⟨"/tmp/w", "video_1"⟩).2.1
    "FileNotFoundError: yt-dlp" rfl⟩

/-- C2: for every accepted batch run over a non-empty parsed URL list of
length N, the accumulated results number at most N and their indices are
distinct values drawn from 1..N in strictly increasing order. -/
theorem C2_results_indices (env : Nat → JobEnv) (input : String)
    (st : BatchState) (hst : st.processing = false)
    (hne : parseUrls input ≠ []) :
    (startProcessing env input st).processed_videos.length
        ≤ (parseUrls input).length
    ∧ ((startProcessing env input st).processed_videos.map
        VideoResult.index).Pairwise (fun a b => a < b)
    ∧ ∀ k ∈ (startProcessing env input st).processed_videos.map
        VideoResult.index, 1 ≤ k ∧ k ≤ (parseUrls input).length := by
  rw [startProcessing_accepted env input st hst hne]
  dsimp only
  have hsub := runResults_map_index_sublist env (pyEnumerate 1 (parseUrls input))
  refine ⟨?_, ?_, ?_⟩
  · have h1 := runResults_length_le env (pyEnumerate 1 (parseUrls input))
    have h2 := pyEnumerate_length 1 (parseUrls input)
    omega
  · have hpw := pyEnumerate_fst_pairwise 1 (parseUrls input)
    have hpw' : ((pyEnumerate 1 (parseUrls input)).map Prod.fst).Pairwise
        (fun a b => a < b) := List.pairwise_map.mpr hpw
    exact List.Pairwise.sublist hsub hpw'
  · intro k hk
    have hk' : k ∈ (pyEnumerate 1 (parseUrls input)).map Prod.fst :=
      hsub.subset hk
    rcases List.mem_map.mp hk' with ⟨q, hq, hqk⟩
    have hb := pyEnumerate_mem_bounds 1 (parseUrls input) q.1 q.2
      (by simpa using hq)
    omega

theorem C2_results_indices_witness :
    (BatchState.mk [] false).processing = false
    ∧ parseUrls "https://a\nhttps://b" ≠ []
    ∧ ((startProcessing envOK "https://a\nhttps://b"
          ⟨[], false⟩).processed_videos.length
        ≤ (parseUrls "https://a\nhttps://b").length
      ∧ ((startProcessing envOK "https://a\nhttps://b"
          ⟨[], false⟩).processed_videos.map VideoResult.index).Pairwise
            (fun a b => a < b)
      ∧ ∀ k ∈ (startProcessing envOK "https://a\nhttps://b"
          ⟨[], false⟩).processed_videos.map VideoResult.index,
          1 ≤ k ∧ k ≤ (parseUrls "https://a\nhttps://b").length) :=
  ⟨rfl, by decide,
    C2_results_indices envOK "https://a\nhttps://b" ⟨[], false⟩ rfl (by decide)⟩

theorem appendResult_mem_startProcessingEvents (env : Nat → JobEnv)
    (input : String) (st : BatchState) (r : VideoResult)
    (h : Event.appendResult r ∈ startProcessingEvents env input st) :
    ∃ p ∈ pyEnumerate 1 (parseUrls input),
      process_video (env p.1) p.2 p.1 = some r := by
  rcases hb : st.processing with _ | _
  · rcases hp : parseUrls input with _ | ⟨u, us⟩
    · rw [startProcessingEvents_of_empty env input st hb hp] at h
      simp at h
    · rw [startProcessingEvents_accepted env input st hb u us hp] at h
      simp only [List.mem_cons, List.mem_append, List.not_mem_nil, or_false,
        or_assoc] at h
      rcases h with h | h | h | h | h | h
      · cases h
      · cases h
      · cases h
      · exact appendResult_mem_batchLoopEvents env (u :: us).length
          (pyEnumerate 1 (u :: us)) r h
      · cases h
      · cases h
  · rw [startProcessingEvents_of_processing env input st hb] at h
    simp at h

/-- C3: when the download of job `i` yields null, the job's event trace
contains no speech-model call and no translator call, the job's value is
null, no `appendResult` event for index `i` is ever emitted, and the final
results hold no result with index `i`. -/
theorem C3_fetch_failure_isolates (env : Nat → JobEnv) (input : String)
    (st : BatchState) (i : Nat) (u : String)
    (hst : st.processing = false)
    (hmem : (i, u) ∈ pyEnumerate 1 (parseUrls input))
    (hfail : download_video (env i).fetch u (vpath (env i).tempDir i) = none) :
    (∀ e ∈ (process_video_eff (env i) u i).2,
        (∀ f lang, e ≠ Event.transcribeCall f lang) ∧
        (∀ t src dest, e ≠ Event.translateCall t src dest))
    ∧ process_video (env i) u i = none
    ∧ (∀ r : VideoResult,
        Event.appendResult r ∈ startProcessingEvents env input st →
        r.index ≠ i)
    ∧ (∀ r ∈ (startProcessing env input st).processed_videos, r.index ≠ i) := by
  have hnone : process_video (env i) u i = none := by
    rw [process_video_eq, hfail]
  have hnores : ∀ r : VideoResult, ∀ j : Nat, ∀ v : String,
      (j, v) ∈ pyEnumerate 1 (parseUrls input) →
      process_video (env j) v j = some r → r.index ≠ i := by
    intro r j v hjv hpv hidx
    have hj : r.index = j := (process_video_some (env j) v j r hpv).1
    rw [hidx] at hj
    rw [← hj] at hjv
    have hvu : v = u := pyEnumerate_functional 1 (parseUrls input) i v u hjv hmem
    rw [hvu] at hpv
    rw [← hj] at hpv
    rw [hnone] at hpv
    cases hpv
  refine ⟨?_, hnone, ?_, ?_⟩
  · intro e he
    unfold process_video_eff process_video_try at he
    have hshape := download_video_eff_events_shape (env i).fetch u
      (vpath (env i).tempDir i)
    rcases hdle : download_video_eff (env i).fetch u (vpath (env i).tempDir i)
      with ⟨od, devs⟩
    have hod : od = none := by
      have : download_video (env i).fetch u (vpath (env i).tempDir i) = od := by
        unfold download_video
        rw [hdle]
      rw [← this, hfail]
    subst hod
    rw [hdle] at he hshape
    dsimp only at he hshape
    simp only [List.mem_append, List.mem_cons, List.not_mem_nil, or_false,
      or_assoc] at he
    rcases he with h | h | h
    · rw [h]
      constructor
      · intro f lang hh
        cases hh
      · intro t src dest hh
        cases hh
    · rw [h]
      constructor
      · intro f lang hh
        cases hh
      · intro t src dest hh
        cases hh
    · rcases hshape with hnil | ⟨m, hm⟩
      · rw [hnil] at h
        cases h
      · rw [hm] at h
        simp only [List.mem_singleton] at h
        rw [h]
        constructor
        · intro f lang hh
          cases hh
        · intro t src dest hh
          cases hh
  · intro r hr
    rcases appendResult_mem_startProcessingEvents env input st r hr
      with ⟨p, hp, hpv⟩
    exact hnores r p.1 p.2 (by simpa using hp) hpv
  · intro r hr
    have hne : parseUrls input ≠ [] := by
      intro hp
      rw [hp] at hmem
      simp [pyEnumerate] at hmem
    rw [startProcessing_accepted env input st hst hne] at hr
    dsimp only at hr
    rcases (runResults_mem env (pyEnumerate 1 (parseUrls input)) r).mp hr
      with ⟨p, hp, hpv⟩
    exact hnores r p.1 p.2 (by simpa using hp) hpv

theorem C3_fetch_failure_isolates_witness :
    (BatchState.mk [] false).processing = false
    ∧ (1, "https://a") ∈ pyEnumerate 1 (parseUrls "https://a")
    ∧ download_video (envFail 1).fetch "https://a"
        (vpath (envFail 1).tempDir 1) = none
    ∧ ((∀ e ∈ (process_video_eff (envFail 1) "https://a" 1).2,
        (∀ f lang, e ≠ Event.transcribeCall f lang) ∧
        (∀ t src dest, e ≠ Event.translateCall t src dest))
      ∧ process_video (envFail 1) "https://a" 1 = none
      ∧ (∀ r : VideoResult,
          Event.appendResult r ∈ startProcessingEvents envFail "https://a"
            ⟨[], false⟩ → r.index ≠ 1)
      ∧ (∀ r ∈ (startProcessing envFail "https://a"
          ⟨[], false⟩).processed_videos, r.index ≠ 1)) :=
  ⟨rfl, by decide, by decide,
    C3_fetch_failure_isolates envFail "https://a" ⟨[], false⟩ 1 "https://a"
      rfl (by decide) (by decide)⟩

/-- C4: the translator never fails a job outward — whenever download and
transcription of job `i` succeed, `process_video` returns a result that is
appended to the final results; if the translation backend raises, the
result's target text is the fallback string built from the error message. -/
theorem C4_translator_never_fails (env : Nat → JobEnv) (input : String)
    (st : BatchState) (i : Nat) (u : String) (f : Path) (a : String)
    (hst : st.processing = false)
    (hmem : (i, u) ∈ pyEnumerate 1 (parseUrls input))
    (hdl : download_video (env i).fetch u (vpath (env i).tempDir i) = some f)
    (htr : (env i).transcribe = Except.ok a) :
    process_video (env i) u i
      = some ⟨u, a,
          (match (env i).translate with
           | Except.ok t => t
           | Except.error e => "Translation failed: " ++ e), i⟩
    ∧ (⟨u, a,
          (match (env i).translate with
           | Except.ok t => t
           | Except.error e => "Translation failed: " ++ e), i⟩ : VideoResult)
        ∈ (startProcessing env input st).processed_videos
    ∧ (∀ e, (env i).translate = Except.error e →
        (match (env i).translate with
         | Except.ok t => t
         | Except.error e' => "Translation failed: " ++ e')
          = "Translation failed: " ++ e) := by
  have hpv : process_video (env i) u i
      = some ⟨u, a,
          (match (env i).translate with
           | Except.ok t => t
           | Except.error e => "Translation failed: " ++ e), i⟩ := by
    rw [process_video_eq, hdl, htr]
  have hne : parseUrls input ≠ [] := by
    intro hp
    rw [hp] at hmem
    simp [pyEnumerate] at hmem
  refine ⟨hpv, ?_, ?_⟩
  · rw [startProcessing_accepted env input st hst hne]
    dsimp only
    exact (runResults_mem env (pyEnumerate 1 (parseUrls input)) _).mpr
      ⟨(i, u), hmem, hpv⟩
  · intro e he
    rw [he]

theorem C4_translator_never_fails_witness :
    (BatchState.mk [] false).processing = false
    ∧ (1, "https://a") ∈ pyEnumerate 1 (parseUrls "https://a")
    ∧ download_video ((fun _ => jenvTransFail) 1).fetch "https://a"
        (vpath ((fun _ => jenvTransFail) 1).tempDir 1)
      = some ⟨"/tmp/w", "video_1.mp4"⟩
    ∧ ((fun _ => jenvTransFail) 1).transcribe = Except.ok "ar text"
    ∧ (process_video ((fun _ => jenvTransFail) 1) "https://a" 1
        = some ⟨"https://a", "ar text",
            (match ((fun _ => jenvTransFail) 1).translate with
             | Except.ok t => t
             | Except.error e => "Translation failed: " ++ e), 1⟩
      ∧ (⟨"https://a", "ar text",
            (match ((fun _ => jenvTransFail) 1).translate with
             | Except.ok t => t
             | Except.error e => "Translation failed: " ++ e), 1⟩ : VideoResult)
          ∈ (startProcessing (fun _ => jenvTransFail) "https://a"
              ⟨[], false⟩).processed_videos
      ∧ (∀ e, ((fun _ => jenvTransFail) 1).translate = Except.error e →
          (match ((fun _ => jenvTransFail) 1).translate with
           | Except.ok t => t
           | Except.error e' => "Translation failed: " ++ e')
            = "Translation failed: " ++ e)) :=
  ⟨rfl, by decide, by decide, rfl,
    C4_translator_never_fails (fun _ => jenvTransFail) "https://a" ⟨[], false⟩
      1 "https://a" ⟨"/tmp/w", "video_1.mp4"⟩ "ar text" rfl (by decide)
      (by decide) rfl⟩

/-- C5: for every result in a results list with distinct indices, the
archive holds exactly three artifacts whose names encode that result's
index and kind, with the stated contents; the three names are distinct;
the byte-level archive stores each content UTF-8 encoded, and UTF-8
decoding those bytes reproduces the URL, source text and target text
verbatim apart from the fixed header and separator text. -/
theorem C5_export_roundtrip (results : List VideoResult)
    (hnd : (results.map VideoResult.index).Nodup) (v : VideoResult)
    (hv : v ∈ results) :
    (zipEntries results).filter (fun e => matchesIndex v.index e.1)
      = [(arabicName v.index,
          "Video URL: " ++ v.url ++ "\n\nARABIC TRANSCRIPT:\n" ++ v.arabic),
         (englishName v.index,
          "Video URL: " ++ v.url ++ "\n\nENGLISH TRANSLATION:\n" ++ v.english),
         (bothName v.index,
          "Video URL: " ++ v.url ++ "\n\nARABIC TRANSCRIPT:\n" ++ v.arabic
            ++ "\n\n" ++ separatorLine ++ "\n\nENGLISH TRANSLATION:\n"
            ++ v.english)]
    ∧ (zipArchive results).filter (fun e => matchesIndex v.index e.1)
      = [(arabicName v.index, encodeUTF8 (arabicContent v)),
         (englishName v.index, encodeUTF8 (englishContent v)),
         (bothName v.index, encodeUTF8 (combinedContent v))]
    ∧ arabicName v.index ≠ englishName v.index
    ∧ arabicName v.index ≠ bothName v.index
    ∧ englishName v.index ≠ bothName v.index
    ∧ decodeUTF8 (encodeUTF8 (arabicContent v))
      = some ("Video URL: " ++ v.url ++ "\n\nARABIC TRANSCRIPT:\n"
          ++ v.arabic).data
    ∧ decodeUTF8 (encodeUTF8 (englishContent v))
      = some ("Video URL: " ++ v.url ++ "\n\nENGLISH TRANSLATION:\n"
          ++ v.english).data
    ∧ decodeUTF8 (encodeUTF8 (combinedContent v))
      = some ("Video URL: " ++ v.url ++ "\n\nARABIC TRANSCRIPT:\n" ++ v.arabic
          ++ "\n\n" ++ separatorLine ++ "\n\nENGLISH TRANSLATION:\n"
          ++ v.english).data := by
  refine ⟨?_, ?_, arabicName_ne_englishName _ _, arabicName_ne_bothName _ _,
    englishName_ne_bothName _ _, decodeUTF8_encodeUTF8 (arabicContent v),
    decodeUTF8_encodeUTF8 (englishContent v),
    decodeUTF8_encodeUTF8 (combinedContent v)⟩
  · rw [zipEntries_filter_eq results hnd v hv]
    rfl
  · rw [zipArchive_filter_eq results hnd v hv]
    rfl

theorem C5_export_roundtrip_witness :
    (([⟨"https://a", "ar", "en", 1⟩] : List VideoResult).map
        VideoResult.index).Nodup
    ∧ (⟨"https://a", "ar", "en", 1⟩ : VideoResult)
        ∈ ([⟨"https://a", "ar", "en", 1⟩] : List VideoResult)
    ∧ ((zipEntries [⟨"https://a", "ar", "en", 1⟩]).filter
        (fun e => matchesIndex 1 e.1)
      = [(arabicName 1, "Video URL: " ++ "https://a"
            ++ "\n\nARABIC TRANSCRIPT:\n" ++ "ar"),
         (englishName 1, "Video URL: " ++ "https://a"
            ++ "\n\nENGLISH TRANSLATION:\n" ++ "en"),
         (bothName 1, "Video URL: " ++ "https://a"
            ++ "\n\nARABIC TRANSCRIPT:\n" ++ "ar" ++ "\n\n" ++ separatorLine
            ++ "\n\nENGLISH TRANSLATION:\n" ++ "en")]
      ∧ (zipArchive [⟨"https://a", "ar", "en", 1⟩]).filter
          (fun e => matchesIndex 1 e.1)
        = [(arabicName 1, encodeUTF8 (arabicContent ⟨"https://a", "ar", "en", 1⟩)),
           (englishName 1, encodeUTF8 (englishContent ⟨"https://a", "ar", "en", 1⟩)),
           (bothName 1, encodeUTF8 (combinedContent ⟨"https://a", "ar", "en", 1⟩))]
      ∧ arabicName 1 ≠ englishName 1
      ∧ arabicName 1 ≠ bothName 1
      ∧ englishName 1 ≠ bothName 1
      ∧ decodeUTF8 (encodeUTF8 (arabicContent ⟨"https://a", "ar", "en", 1⟩))
        = some ("Video URL: " ++ "https://a" ++ "\n\nARABIC TRANSCRIPT:\n"
            ++ "ar").data
      ∧ decodeUTF8 (encodeUTF8 (englishContent ⟨"https://a", "ar", "en", 1⟩))
        = some ("Video URL: " ++ "https://a" ++ "\n\nENGLISH TRANSLATION:\n"
            ++ "en").data
      ∧ decodeUTF8 (encodeUTF8 (combinedContent ⟨"https://a", "ar", "en", 1⟩))
        = some ("Video URL: " ++ "https://a" ++ "\n\nARABIC TRANSCRIPT:\n"
            ++ "ar" ++ "\n\n" ++ separatorLine
            ++ "\n\nENGLISH TRANSLATION:\n" ++ "en").data) :=
  ⟨by decide, by decide,
    C5_export_roundtrip [⟨"https://a", "ar", "en", 1⟩] (by decide)
      ⟨"https://a", "ar", "en", 1⟩ (by decide)⟩

/-- C6: when every line of the URL input strips to blank, the parsed URL
list is empty, no job is enumerated, the handler leaves the session state
untouched, and the only emitted event is the sidebar validation error. -/
theorem C6_blank_input_rejected (env : Nat → JobEnv) (input : String)
    (st : BatchState) (hst : st.processing = false)
    (hblank : ∀ l ∈ splitOnNl input.data, pyStrip l = []) :
    parseUrls input = []
    ∧ pyEnumerate 1 (parseUrls input) = []
    ∧ startProcessing env input st = st
    ∧ startProcessingEvents env input st
      = [Event.sidebarError "Please enter at least one YouTube URL"] := by
  have hp : parseUrls input = [] := by
    unfold parseUrls
    rw [List.filter_eq_nil_iff]
    intro s hs
    rcases List.mem_map.mp hs with ⟨l, hl, hsl⟩
    rw [hblank l hl] at hsl
    rw [← hsl]
    simp
  exact ⟨hp, by rw [hp]; rfl,
    startProcessing_of_empty env input st hst hp,
    startProcessingEvents_of_empty env input st hst hp⟩

theorem C6_blank_input_rejected_witness :
    (BatchState.mk [⟨"u", "a", "e", 1⟩] false).processing = false
    ∧ (∀ l ∈ splitOnNl (" \n\t" : String).data, pyStrip l = [])
    ∧ (parseUrls " \n\t" = []
      ∧ pyEnumerate 1 (parseUrls " \n\t") = []
      ∧ startProcessing envOK " \n\t" ⟨[⟨"u", "a", "e", 1⟩], false⟩
          = ⟨[⟨"u", "a", "e", 1⟩], false⟩
      ∧ startProcessingEvents envOK " \n\t" ⟨[⟨"u", "a", "e", 1⟩], false⟩
          = [Event.sidebarError "Please enter at least one YouTube URL"]) :=
  ⟨rfl, by decide,
    C6_blank_input_rejected envOK " \n\t" ⟨[⟨"u", "a", "e", 1⟩], false⟩ rfl
      (by decide)⟩

/-- C7: after an accepted run, `processing` is back to false, so an
immediately repeated submission of the same input is accepted again; its
event sequence clears the results right after raising the flag and before
anything else, and its final state is identical to a run started from a
pristine state — no element of the first run survives into the second. -/
theorem C7_rerun_resets (env1 env2 : Nat → JobEnv) (input : String)
    (st0 : BatchState) (hst : st0.processing = false)
    (hne : parseUrls input ≠ []) :
    (startProcessing env1 input st0).processing = false
    ∧ (∃ post, startProcessingEvents env2 input (startProcessing env1 input st0)
        = Event.setProcessing true :: Event.clearResults :: post)
    ∧ startProcessing env2 input (startProcessing env1 input st0)
      = startProcessing env2 input ⟨[], false⟩
    ∧ (startProcessing env2 input (startProcessing env1 input st0)).processed_videos
      = runResults env2 (pyEnumerate 1 (parseUrls input)) := by
  have h1 := startProcessing_accepted env1 input st0 hst hne
  have hp1 : (startProcessing env1 input st0).processing = false := by
    rw [h1]
  rcases hp : parseUrls input with _ | ⟨u, us⟩
  · exact absurd hp hne
  · refine ⟨hp1, ?_, ?_, ?_⟩
    · exact ⟨_, startProcessingEvents_accepted env2 input _ hp1 u us hp⟩
    · rw [startProcessing_accepted env2 input _ hp1 hne,
        startProcessing_accepted env2 input ⟨[], false⟩ rfl hne]
    · rw [startProcessing_accepted env2 input _ hp1 hne, hp]

theorem C7_rerun_resets_witness :
    (BatchState.mk [] false).processing = false
    ∧ parseUrls "https://a" ≠ []
    ∧ ((startProcessing envFail "https://a" ⟨[], false⟩).processing = false
      ∧ (∃ post, startProcessingEvents envOK "https://a"
            (startProcessing envFail "https://a" ⟨[], false⟩)
          = Event.setProcessing true :: Event.clearResults :: post)
      ∧ startProcessing envOK "https://a"
            (startProcessing envFail "https://a" ⟨[], false⟩)
          = startProcessing envOK "https://a" ⟨[], false⟩
      ∧ (startProcessing envOK "https://a"
            (startProcessing envFail "https://a" ⟨[], false⟩)).processed_videos
          = runResults envOK (pyEnumerate 1 (parseUrls "https://a"))) :=
  ⟨rfl, by decide,
    C7_rerun_resets envFail envOK "https://a" ⟨[], false⟩ rfl (by decide)⟩

/-- C8: an accepted run's event sequence raises `processing` first and
lowers it as its final state mutation, with no other `setProcessing` event
in between; hence the state after any prefix of at least one event, short
of the last two, has `processing` true, and the final state has it false. -/
theorem C8_processing_flag (env : Nat → JobEnv) (input : String)
    (st : BatchState) (hst : st.processing = false)
    (hne : parseUrls input ≠ []) :
    (∃ mid, startProcessingEvents env input st
        = Event.setProcessing true :: mid
          ++ [Event.setProcessing false,
              Event.success "🎉 All videos processed!"]
      ∧ ∀ b, Event.setProcessing b ∉ mid)
    ∧ (∀ k, 1 ≤ k → k + 2 ≤ (startProcessingEvents env input st).length →
        (applyEvents st ((startProcessingEvents env input st).take k)).processing
          = true)
    ∧ (applyEvents st (startProcessingEvents env input st)).processing
      = false := by
  rcases hp : parseUrls input with _ | ⟨u, us⟩
  · exact absurd hp hne
  have hev := startProcessingEvents_accepted env input st hst u us hp
  have hmid : startProcessingEvents env input st
      = Event.setProcessing true ::
        (Event.clearResults :: Event.spinner "Loading AI models..." ::
          batchLoopEvents env (u :: us).length (pyEnumerate 1 (u :: us)))
        ++ [Event.setProcessing false,
            Event.success "🎉 All videos processed!"] := by
    rw [hev]
    simp
  have hnomid : ∀ b, Event.setProcessing b
      ∉ Event.clearResults :: Event.spinner "Loading AI models..." ::
        batchLoopEvents env (u :: us).length (pyEnumerate 1 (u :: us)) := by
    intro b hb
    simp only [List.mem_cons] at hb
    rcases hb with hb | hb | hb
    · cases hb
    · cases hb
    · exact batchLoopEvents_no_setProcessing env (u :: us).length
        (pyEnumerate 1 (u :: us)) b hb
  refine ⟨⟨_, hmid, hnomid⟩, ?_, ?_⟩
  · intro k hk1 hk2
    rw [hmid] at hk2 ⊢
    obtain ⟨j, rfl⟩ : ∃ j, k = j + 1 := ⟨k - 1, by omega⟩
    have hj : j ≤ (Event.clearResults ::
        Event.spinner "Loading AI models..." ::
        batchLoopEvents env (u :: us).length (pyEnumerate 1 (u :: us))).length := by
      simp only [List.length_cons, List.length_append, List.length_nil] at hk2
      simp only [List.length_cons]
      omega
    rw [List.cons_append, List.take_succ_cons, List.take_append_of_le_length hj]
    rw [applyEvents_cons]
    rw [applyEvents_processing_of_no_setProcessing
      (fun b hb => hnomid b (List.take_subset _ _ hb))]
    rfl
  · have hfinal := startProcessing_accepted env input st hst hne
    show (startProcessing env input st).processing = false
    rw [hfinal]

theorem C8_processing_flag_witness :
    (BatchState.mk [] false).processing = false
    ∧ parseUrls "https://a" ≠ []
    ∧ ((∃ mid, startProcessingEvents envOK "https://a" ⟨[], false⟩
          = Event.setProcessing true :: mid
            ++ [Event.setProcessing false,
                Event.success "🎉 All videos processed!"]
        ∧ ∀ b, Event.setProcessing b ∉ mid)
      ∧ (∀ k, 1 ≤ k →
          k + 2 ≤ (startProcessingEvents envOK "https://a" ⟨[], false⟩).length →
          (applyEvents ⟨[], false⟩
            ((startProcessingEvents envOK "https://a" ⟨[], false⟩).take
              k)).processing = true)
      ∧ (applyEvents ⟨[], false⟩
          (startProcessingEvents envOK "https://a" ⟨[], false⟩)).processing
        = false) :=
  ⟨rfl, by decide,
    C8_processing_flag envOK "https://a" ⟨[], false⟩ rfl (by decide)⟩

/-- C9: a `process_video` call never mutates the session state — applying
its whole event trace to any state is the identity, and in particular it
emits no `appendResult` event; the only way a result enters the collection
is the batch loop appending the non-null return value of `process_video`
for one of the enumerated jobs. -/
theorem C9_process_video_frame (env : JobEnv) (url : String) (i : Nat)
    (s : BatchState) :
    applyEvents s (process_video_eff env url i).2 = s
    ∧ (∀ r : VideoResult,
        Event.appendResult r ∉ (process_video_eff env url i).2)
    ∧ (∀ (genv : Nat → JobEnv) (input : String) (st : BatchState)
        (r : VideoResult),
        Event.appendResult r ∈ startProcessingEvents genv input st →
        ∃ p ∈ pyEnumerate 1 (parseUrls input),
          process_video (genv p.1) p.2 p.1 = some r) := by
  refine ⟨applyEvents_process_video env url i s, ?_, ?_⟩
  · intro r hr
    have := process_video_eff_events env url i _ hr
    simp [mutatesState] at this
  · intro genv input st r hr
    exact appendResult_mem_startProcessingEvents genv input st r hr

theorem C9_process_video_frame_witness :
    (applyEvents ⟨[⟨"u", "a", "e", 7⟩], false⟩
        (process_video_eff jenvOK "https://a" 1).2
      = ⟨[⟨"u", "a", "e", 7⟩], false⟩)
    ∧ Event.appendResult ⟨"https://a", "ar text", "en text", 1⟩
        ∈ startProcessingEvents envOK "https://a" ⟨[], false⟩
    ∧ ∃ p ∈ pyEnumerate 1 (parseUrls "https://a"),
        process_video (envOK p.1) p.2 p.1
          = some ⟨"https://a", "ar text", "en text", 1⟩ :=
  ⟨(C9_process_video_frame jenvOK "https://a" 1
      ⟨[⟨"u", "a", "e", 7⟩], false⟩).1,
    by decide,
    (C9_process_video_frame jenvOK "https://a" 1 ⟨[], false⟩).2.2
      envOK "https://a" ⟨[], false⟩ ⟨"https://a", "ar text", "en text", 1⟩
      (by decide)⟩

/-- C10: `process_video` is total at the batch boundary — either its body
runs to completion and the call returns the body's value, or the body
raises and the call returns null; and an exception from the downloader
invocation itself (e.g. the binary being absent) is already caught inside
`download_video`, which then returns null, so the job fails without any
exception reaching the batch loop. -/
theorem C10_exception_containment (env : JobEnv) (url : String) (i : Nat) :
    ((process_video_try env url i).1
        = Except.ok (process_video env url i)
      ∨ (process_video env url i = none
        ∧ ∃ e, (process_video_try env url i).1 = Except.error e))
    ∧ (∀ e, env.fetch.run = Except.error e →
        download_video env.fetch url (vpath env.tempDir i) = none
        ∧ process_video env url i = none) := by
  constructor
  · rcases hpt : process_video_try env url i with ⟨res, evs⟩
    cases res with
    | ok r =>
      left
      have : process_video env url i = r := by
        unfold process_video process_video_eff
        rw [hpt]
      rw [this]
    | error e =>
      right
      constructor
      · unfold process_video process_video_eff
        rw [hpt]
      · exact ⟨e, rfl⟩
  · intro e he
    have hdl : download_video env.fetch url (vpath env.tempDir i) = none := by
      unfold download_video download_video_eff
      rw [he]
    exact ⟨hdl, by rw [process_video_eq, hdl]⟩

theorem C10_exception_containment_witness :
    jenvRaise.fetch.run = Except.error "FileNotFoundError: yt-dlp"
    ∧ download_video jenvRaise.fetch "https://a" (vpath jenvRaise.tempDir 1)
        = none
    ∧ process_video jenvRaise "https://a" 1 = none :=
  ⟨rfl,
    (C10_exception_containment jenvRaise "https://a" 1).2
      "FileNotFoundError: yt-dlp" rfl⟩

end YTT
